import Mathlib

/-!
Verification of the mimesis data-faker core against its specification.

The definitions below are shallow embeddings of the Python source files
(src/mimesis/shortcuts.py, src/mimesis/random.py, src/mimesis/providers/code.py,
src/mimesis/providers/payment.py, src/mimesis/providers/base.py,
src/mimesis/builtins/da.py, src/mimesis/builtins/it.py,
src/mimesis/builtins/pt_br.py).  Python machine integers are modelled as
Nat or Int (Python integers are unbounded, so no wrap-around is needed),
Python floats are modelled by their exact rational values, fallible
operations return Option or Except, and random draws are passed in
explicitly as parameters or streams.
-/

namespace Mimesis


/-- Character for the decimal digit d (intended for d < 10).  Models the
single character produced by Python str() on a digit. -/
def digitChar (d : Nat) : Char := Char.ofNat (48 + d)

/-- Numeric value of a decimal digit character.  Models Python int(c) for a
digit character c. -/
def charDigit (c : Char) : Nat := c.toNat - 48

/-- Big-endian decimal digits of a natural number, computed with a
structural fuel argument so that the kernel can evaluate it. -/
def natDigitsAux : Nat → Nat → List Nat
  | 0, _ => []
  | fuel + 1, n => if n < 10 then [n] else natDigitsAux fuel (n / 10) ++ [n % 10]

/-- Big-endian decimal digits of a natural number. -/
def natDigits (n : Nat) : List Nat := natDigitsAux (n + 1) n

/-- Decimal rendering of a natural number; models Python str(n) for n >= 0. -/
def natToString (n : Nat) : String := String.mk ((natDigits n).map digitChar)

/-- Models the Python format expression f-string colon 02d: pad a number to
at least two digits with a leading zero. -/
def pyFormat02 (n : Nat) : String := if n < 10 then "0" ++ natToString n else natToString n

/-- Models the Python slice s[-2:], keeping the last two characters. -/
def pyLastTwo (s : String) : String := String.mk (s.data.drop (s.data.length - 2))

/-- Models the Python slice s[a:b] for 0 <= a <= b. -/
def pySlice (s : String) (a b : Nat) : String := String.mk ((s.data.drop a).take (b - a))

/-- Doubling step of the Luhn arithmetic: double a digit and subtract 9
when the doubled value exceeds 9. -/
def luhnDouble (d : Nat) : Nat := let dd := 2 * d; if dd > 9 then dd - 9 else dd

/-- Shallow embedding of luhn_checksum from src/mimesis/shortcuts.py.
The source keeps the digits of num, doubles digits [i] for
i = len - 2, len - 4, ... (that is, every index i with i + 2 <= len and
len - i even), subtracts 9 from doubled values above 9, sums, and returns
str((10 - (total % 10)) % 10). -/
def luhn_checksum (num : String) : String :=
  let digits := (num.data.filter Char.isDigit).map charDigit
  let len := digits.length
  let adjusted := digits.mapIdx (fun i d =>
    if i + 2 ≤ len ∧ (len - i) % 2 = 0 then luhnDouble d else d)
  natToString ((10 - adjusted.sum % 10) % 10)

/-- Modelled from the spec: the Luhn check-digit rule as the specification
words it.  Double every digit at odd distance from the check position
(0-indexed from the right, the check digit excluded, so the rightmost base
digit, at distance 1, is doubled); subtract 9 from doubled values above 9;
the check digit is (10 - (sum mod 10)) mod 10. -/
def luhnSpecChecksum (num : String) : String :=
  let digits := (num.data.filter Char.isDigit).map charDigit
  let len := digits.length
  let adjusted := digits.mapIdx (fun i d =>
    if (len - i) % 2 = 1 then luhnDouble d else d)
  natToString ((10 - adjusted.sum % 10) % 10)

/-- Kinds of Python exceptions raised by the modelled code. -/
inductive PyErr where
  | attributeError (cls attr : String)
  | valueError (msg : String)
  | indexError
  deriving DecidableEq

/-- Names of the attributes (methods) defined on the class
mimesis.random.Random from src/mimesis/random.py, together with the methods
it inherits from its base class, the standard library class random.Random
(the latter list is modelled from the Python 3.12 standard library, which
is external to this repository). -/
def randomAttrs : List String :=
  ["randints", "_generate_string", "generate_string_by_mask", "uniform",
   "randbytes", "weighted_choice", "choice_enum_item",
   "seed", "getstate", "setstate", "random", "getrandbits", "randrange",
   "randint", "choice", "choices", "shuffle", "sample", "triangular",
   "normalvariate", "gauss", "lognormvariate", "expovariate",
   "vonmisesvariate", "gammavariate", "betavariate", "paretovariate",
   "weibullvariate", "binomialvariate", "_randbelow"]

/-- Models Python attribute lookup on a mimesis Random instance: the name
resolves when it is among the attributes of the class (or its bases), and
raises AttributeError otherwise. -/
def randomGetattr (name : String) : Except PyErr Unit :=
  if name ∈ randomAttrs then .ok () else .error (.attributeError "Random" name)

/-- Shallow embedding of Code._calculate_check_digit from
src/mimesis/providers/code.py: ISSN check digit over the dash-free digit
string, weight 8 - i for the character at index i, check
(11 - total mod 11) mod 11, with 10 rendered as X. -/
def calculate_check_digit (issn : String) : String :=
  let digits := issn.data.filter (fun c => c ≠ '-')
  let total : Int := (digits.enum.map (fun p => (8 - (p.1 : Int)) * (charDigit p.2 : Int))).sum
  let check := (11 - total % 11) % 11
  if check = 10 then "X" else natToString check.toNat

/-- Shallow embedding of Code._calculate_isbn_check_digit from
src/mimesis/providers/code.py: weight 10 - i for the character at index i
(X counted as 10), check (11 - total mod 11) mod 11, 10 rendered as X. -/
def calculate_isbn_check_digit (isbn : String) : String :=
  let total : Int := (isbn.data.enum.map (fun p =>
    (if p.2 = 'X' then (10 : Int) else (charDigit p.2 : Int)) * (10 - (p.1 : Int)))).sum
  let check := (11 - total % 11) % 11
  if check = 10 then "X" else natToString check.toNat

/-- Shallow embedding of Code.issn: the source evaluates
self.random.custom_code(mask=mask), so its first step is the attribute
lookup of custom_code on the Random instance.  The string the mask
expansion would produce if the lookup succeeded is passed in as the
parameter issnDraw. -/
def Code.issn (_mask issnDraw : String) : Except PyErr String :=
  (randomGetattr "custom_code").map (fun _ => issnDraw ++ calculate_check_digit issnDraw)

/-- Shallow embedding of Code.isbn after format validation and mask
selection: group is the ISBN group prefix when the locale has one, and
isbnDraw is the string the mask expansion would produce if the lookup of
custom_code succeeded. -/
def Code.isbn (group : Option String) (isbnDraw : String) : Except PyErr String :=
  (randomGetattr "custom_code").map (fun _ =>
    let isbn := match group with
      | some g => g ++ isbnDraw
      | none => isbnDraw
    isbn ++ calculate_isbn_check_digit isbn)

/-- Shallow embedding of Code.ean after format validation: eanDraw is the
string the mask expansion would produce if the lookup succeeded. -/
def Code.ean (eanDraw : String) : Except PyErr String :=
  (randomGetattr "custom_code").map (fun _ => eanDraw ++ luhn_checksum eanDraw)

/-- Shallow embedding of Code.imei: tac is the randomly chosen TAC prefix
(drawn before the failing lookup) and serialDraw the would-be serial. -/
def Code.imei (tac serialDraw : String) : Except PyErr String :=
  (randomGetattr "custom_code").map (fun _ =>
    (tac ++ serialDraw) ++ luhn_checksum (tac ++ serialDraw))

/-- Shallow embedding of Code.pin. -/
def Code.pin (_mask pinDraw : String) : Except PyErr String :=
  (randomGetattr "custom_code").map (fun _ => pinDraw)

/-- Modelled from the spec: the underlying pseudo-random engine (the
CPython Mersenne Twister behind random.Random) is external to this
repository.  The specification requires only that seeding resets the
internal state to a pure function of the seed value, fully discarding
prior state, and that every draw is a pure function of the state.  We
model the engine as a 64-bit linear congruential word generator, which has
exactly these properties. -/
def engineSeed (n : Nat) : Nat := (n * 6364136223846793005 + 1442695040888963407) % 2 ^ 64

/-- Modelled from the spec: one step of the external engine, returning a
raw word and the successor state. -/
def engineNext (st : Nat) : Nat × Nat :=
  let st2 := (st * 6364136223846793005 + 1442695040888963407) % 2 ^ 64
  (st2 / 2 ^ 33, st2)

/-- Modelled from the spec: a uniform draw below k (the standard library
helper _randbelow). -/
def randbelow (k : Nat) (st : Nat) : Nat × Nat :=
  let (r, st2) := engineNext st
  (r % k, st2)

/-- Modelled from the spec: the inclusive-inclusive integer draw
randint(a, b) of the standard library. -/
def randintDraw (a b : Int) (st : Nat) : Int × Nat :=
  let (r, st2) := randbelow (b - a + 1).toNat st
  (a + (r : Int), st2)

/-- Models Python sequence indexing seq[i]: IndexError when out of range. -/
def pyIndex (l : List α) (i : Nat) : Except PyErr α :=
  match l.get? i with
  | some x => .ok x
  | none => .error .indexError

/-- Modelled from the spec: random.choice over the characters of a string,
drawing a uniform index (IndexError on an empty sequence). -/
def choiceChar (s : String) (st : Nat) : Except PyErr Char × Nat :=
  let (i, st2) := randbelow s.data.length st
  (pyIndex s.data i, st2)

/-- Total variant of choiceChar for the constant non-empty character
sequences used by generate_string_by_mask. -/
def pickChar (s : String) (st : Nat) : Char × Nat :=
  let (i, st2) := randbelow s.data.length st
  (s.data.getD i ' ', st2)

/-- Shallow embedding of Random.randints from src/mimesis/random.py:
raises ValueError when n <= 0, otherwise draws n integers in [a, b]. -/
def randintsDraw (n a b : Int) (st : Nat) : Except PyErr (List Int) × Nat :=
  if n ≤ 0 then
    (.error (.valueError "Number of elements must be greater than zero."), st)
  else
    let rec go : Nat → Nat → List Int × Nat
      | 0, st => ([], st)
      | m + 1, st =>
        let (v, st2) := randintDraw a b st
        let (rest, st3) := go m st2
        (v :: rest, st3)
    let (l, st2) := go n.toNat st
    (.ok l, st2)

/-- Shallow embedding of Random.generate_string_by_mask from
src/mimesis/random.py: each occurrence of the char placeholder draws an
uppercase letter, each occurrence of the digit placeholder draws a digit,
every other character passes through literally. -/
def generate_string_by_mask (mask : String) (char digit : Char) (st : Nat) : String × Nat :=
  let step := fun (acc : List Char × Nat) (c : Char) =>
    let (out, st) := acc
    if c = char then
      let (d, st2) := pickChar "ABCDEFGHIJKLMNOPQRSTUVWXYZ" st
      (out ++ [d], st2)
    else if c = digit then
      let (d, st2) := pickChar "0123456789" st
      (out ++ [d], st2)
    else (out ++ [c], st)
  let (out, st2) := mask.data.foldl step ([], st)
  (String.mk out, st2)

/-- Shallow embedding of Random.randbytes from src/mimesis/random.py:
n draws of randint(0, 255). -/
def randbytesDraw : Nat → Nat → List Int × Nat
  | 0, st => ([], st)
  | n + 1, st =>
    let (v, st2) := randintDraw 0 255 st
    let (rest, st3) := randbytesDraw n st2
    (v :: rest, st3)

/-- Seed argument of BaseProvider: an explicit value, the Python value
None, or the MissingSeed sentinel (src/mimesis/types.py). -/
inductive PySeed where
  | missing
  | noneVal
  | value (n : Nat)

/-- State of a BaseProvider from src/mimesis/providers/base.py: the stored
seed attribute and the state of its Random instance. -/
structure Provider where
  seed : PySeed
  rng : Nat

/-- Shallow embedding of BaseProvider.reseed: a non-missing seed is stored
and passed to Random.seed, which resets the engine state; a missing seed
(and likewise the Python value None, inside Random.seed) resets the engine
from a non-reproducible time-derived source, modelled by the entropy
parameter. -/
def Provider.reseed (p : Provider) (seed : PySeed) (entropy : Nat) : Provider :=
  match seed with
  | .missing => { p with rng := engineSeed entropy }
  | .noneVal => { seed := .noneVal, rng := engineSeed entropy }
  | .value n => { seed := .value n, rng := engineSeed n }

/-- One generation request issued to a provider session. -/
inductive Call where
  | randint (a b : Int)
  | randints (n a b : Int)
  | maskedCode (mask : String) (char digit : Char)
  | randbytes (n : Nat)

/-- Observable result of one generation request. -/
inductive Out where
  | int (i : Int)
  | ints (l : List Int)
  | str (s : String)
  | bytes (l : List Int)
  | err (e : PyErr)
  deriving DecidableEq

/-- Dispatch one generation call against the provider state. -/
def Provider.step (p : Provider) : Call → Out × Provider
  | .randint a b =>
    let (v, st2) := randintDraw a b p.rng
    (.int v, { p with rng := st2 })
  | .randints n a b =>
    match randintsDraw n a b p.rng with
    | (.ok l, st2) => (.ints l, { p with rng := st2 })
    | (.error e, st2) => (.err e, { p with rng := st2 })
  | .maskedCode mask char digit =>
    let (s, st2) := generate_string_by_mask mask char digit p.rng
    (.str s, { p with rng := st2 })
  | .randbytes n =>
    let (l, st2) := randbytesDraw n p.rng
    (.bytes l, { p with rng := st2 })

/-- Outputs of a whole call sequence issued against a provider session. -/
def runCalls (p : Provider) : List Call → List Out
  | [] => []
  | c :: cs =>
    let (o, p2) := p.step c
    o :: runCalls p2 cs

/-- Fixed checksum factors of DenmarkSpecProvider from
src/mimesis/builtins/da.py. -/
def checksumFactors : List Nat := [4, 3, 2, 7, 6, 5, 4, 3, 2]

/-- Shallow embedding of DenmarkSpecProvider._calculate_checksum: weighted
sum of the digits of the argument against the checksum factors (zip
truncates to the shorter list), checksum 11 - (sum mod 11), with a raw
result of 11 returned as 0. -/
def calculate_checksum (s : String) : Nat :=
  let total := ((s.data.zip checksumFactors).map (fun p => charDigit p.1 * p.2)).sum
  let checksum := 11 - total % 11
  if checksum = 11 then 0 else checksum

/-- Shallow embedding of DenmarkSpecProvider._generate_serial_checksum:
walk the stream of three-digit serial draws and accept the first serial
whose checksum is not 10 (none when the stream runs out, modelling an
endless rejection loop). -/
def generate_serial_checksum (century : String) :
    List (Fin 10 × Fin 10 × Fin 10) → Option (String × Nat)
  | [] => none
  | (a, b, c) :: rest =>
    let serial := String.mk [digitChar a, digitChar b, digitChar c]
    let checksum := calculate_checksum (century ++ serial)
    if checksum ≠ 10 then some (serial, checksum) else generate_serial_checksum century rest

/-- Shallow embedding of DenmarkSpecProvider.cpr: the birth date drawn by
the Datetime provider is passed in as day, month and year, and the serial
draws as a stream; the result is ddmmyy plus serial plus checksum. -/
def cpr (day month year : Nat) (draws : List (Fin 10 × Fin 10 × Fin 10)) : Option String :=
  let cpr_century := pyFormat02 day ++ pyFormat02 month ++ pyLastTwo (natToString year)
  (generate_serial_checksum cpr_century draws).map
    (fun p => cpr_century ++ p.1 ++ natToString p.2)

/-- Weighted sum of a digit list against the Denmark checksum factors, the
recomputation the claim asks for. -/
def cprWeightedSum (ds : List Nat) : Nat :=
  ((ds.zip checksumFactors).map (fun p => p.1 * p.2)).sum

/-- Checksum recomputed from a digit list: 11 - (weighted sum mod 11),
with a raw result of 11 mapped to 0. -/
def cprCheckOfDigits (ds : List Nat) : Nat :=
  let r := 11 - cprWeightedSum ds % 11
  if r = 11 then 0 else r

/-- Elements at positions 0, 2, 4, ... of a list; models the Python slice
l[::2] (and l[1::2] when applied after dropping one element). -/
def everyOther : List α → List α
  | [] => []
  | [a] => [a]
  | a :: _ :: rest => a :: everyOther rest

/-- The 10-entry remap list of ItalySpecProvider.fiscal_code from
src/mimesis/builtins/it.py. -/
def fiscalOddTable : List Nat := [1, 0, 5, 7, 9, 13, 15, 17, 19, 21]

/-- Direct character value of the source: int(c) for a digit, ord(c) - 55
for a letter. -/
def charValDirect (c : Char) : Nat := if c.isDigit then charDigit c else c.toNat - 55

/-- Index into the remap list used by the source: int(c) for a digit,
ord(c) - 65 for a letter. -/
def charTableIdx (c : Char) : Nat := if c.isDigit then charDigit c else c.toNat - 65

/-- The sum the source stores in even_sum: direct values of the characters
of code[1::2], the characters at odd 0-indexed positions. -/
def fiscalDirectSum (code : String) : Nat :=
  ((everyOther (code.data.drop 1)).map charValDirect).sum

/-- The sum the source stores in odd_sum: remap-list lookups for the
characters of code[::2], the characters at even 0-indexed positions; none
models the IndexError raised when a lookup index is out of range. -/
def fiscalTableSum (code : String) : Option Nat :=
  ((everyOther code.data).mapM (fun c => fiscalOddTable.get? (charTableIdx c))).map List.sum

/-- Check letter of ItalySpecProvider.fiscal_code:
chr((even_sum + odd_sum) mod 26 + 65), none on IndexError. -/
def fiscalCheck (code : String) : Option Char :=
  (fiscalTableSum code).map (fun os => Char.ofNat ((fiscalDirectSum code + os) % 26 + 65))

/-- Shallow embedding of ItalySpecProvider.fiscal_code: the random draws
(three surname letters, three name letters, 2-digit year, month letter,
day, gender and four place characters) are passed in as parameters; the
result is the 15-character base code plus check letter, or none when the
check-letter computation raises IndexError. -/
def fiscal_code (surname name : String) (year : Nat) (month : Char) (day : Nat)
    (female : Bool) (place : String) : Option String :=
  let day2 := if female then day + 40 else day
  let code := surname ++ name ++ pyFormat02 year ++ String.mk [month] ++ pyFormat02 day2 ++ place
  (fiscalCheck code).map (fun ch => code ++ String.mk [ch])

/-- Modelled from the spec: the check-letter computation as the claim words
it, with the characters at even 0-indexed positions contributing their
direct digit value or ord(letter) - 55 and the characters at odd positions
contributing through a 26-entry remap table (passed in as a function, as
the specification does not list its entries). -/
def specFiscalCheck (table : Nat → Nat) (code : String) : Char :=
  let evenSum := ((everyOther code.data).map charValDirect).sum
  let oddSum := ((everyOther (code.data.drop 1)).map (fun c => table (charTableIdx c))).sum
  Char.ofNat ((evenSum + oddSum) % 26 + 65)

/-- Digit values carried by a string, in order; the lens through which the
claims about formatted identifiers read off their digits. -/
def digitsOf (s : String) : List Nat := (s.data.filter Char.isDigit).map charDigit

/-- Models the Python str.join with empty separator: concatenation of a
list of strings. -/
def pyJoin (l : List String) : String := String.mk ((l.map String.data).flatten)

/-- Shallow embedding of BrazilSpecProvider.__get_verifying_digit_cpf from
src/mimesis/builtins/pt_br.py: weighted sum with weight - i for the digit
at index i, remainder mod 11, verifying digit 0 when the remainder is
below 2 and 11 - remainder otherwise. -/
def get_verifying_digit_cpf (cpf : List Nat) (weight : Nat) : Nat :=
  let total := (cpf.enum.map (fun p => p.2 * (weight - p.1))).sum
  let remainder := total % 11
  if remainder < 2 then 0 else 11 - remainder

/-- Shallow embedding of BrazilSpecProvider.cpf: the nine digit draws are
passed in as parameters; the 10th digit verifies the first nine with
weights starting at 10, the 11th verifies the first ten with weights
starting at 11, and the result is rendered with or without the
###.###.###-## mask. -/
def cpf (d0 d1 d2 d3 d4 d5 d6 d7 d8 : Fin 10) (with_mask : Bool) : String :=
  let cpf9 : List Nat := [d0.val, d1.val, d2.val, d3.val, d4.val, d5.val, d6.val, d7.val, d8.val]
  let v1 := get_verifying_digit_cpf cpf9 10
  let cpf10 := cpf9 ++ [v1]
  let v2 := get_verifying_digit_cpf cpf10 11
  let cpf11 := cpf10 ++ [v2]
  if with_mask then
    natToString d0.val ++ natToString d1.val ++ natToString d2.val ++ "." ++
    natToString d3.val ++ natToString d4.val ++ natToString d5.val ++ "." ++
    natToString d6.val ++ natToString d7.val ++ natToString d8.val ++ "-" ++
    natToString v1 ++ natToString v2
  else pyJoin (cpf11.map natToString)

/-- Shallow embedding of Payment.credit_card_number from
src/mimesis/providers/payment.py: pre is the issuing-network prefix drawn
from the card-network table (an external dataset; Visa prefixes start with
4), draws the stream of digit draws.  The source appends 14 - len(prefix)
random digits to the prefix, appends luhn_checksum of that string, and
joins the slices [0:4], [4:8], [8:12], [12:16] with spaces. -/
def credit_card_number (pre : String) (draws : List (Fin 10)) : String :=
  let number := pre ++ String.mk ((draws.take (14 - pre.length)).map (fun d => digitChar d.val))
  let number2 := number ++ luhn_checksum number
  String.intercalate " "
    [pySlice number2 0 4, pySlice number2 4 8, pySlice number2 8 12, pySlice number2 12 16]

/-- Modelled from the spec glossary: the standard Luhn validation sum of a
number, check digit included - double every second digit from the right
(starting with the digit next to the check digit), subtract 9 from doubled
values above 9, and sum; the number is Luhn-valid when the sum is a
multiple of 10. -/
def luhnStandardSum (num : String) : Nat :=
  let ds := (num.data.filter Char.isDigit).map charDigit
  (ds.reverse.mapIdx (fun i d => if i % 2 = 1 then luhnDouble d else d)).sum

/-- Exact rational value num / den (den intended positive), the model of a
Python float; operations below compute on exact values without reduction
so that the kernel can evaluate them. -/
structure Frac where
  num : Int
  den : Int
  deriving DecidableEq

/-- Exact addition. -/
def Frac.add (a b : Frac) : Frac := ⟨a.num * b.den + b.num * a.den, a.den * b.den⟩

/-- Exact subtraction. -/
def Frac.sub (a b : Frac) : Frac := ⟨a.num * b.den - b.num * a.den, a.den * b.den⟩

/-- Exact multiplication. -/
def Frac.mul (a b : Frac) : Frac := ⟨a.num * b.num, a.den * b.den⟩

/-- Comparison, valid for positive denominators. -/
def Frac.le (a b : Frac) : Prop := a.num * b.den ≤ b.num * a.den

instance (a b : Frac) : Decidable (a.le b) := inferInstanceAs (Decidable (_ ≤ _))

/-- The rational value of a Frac. -/
def Frac.toQ (a : Frac) : ℚ := (a.num : ℚ) / (a.den : ℚ)

/-- Floor of a Frac with positive denominator (Int division rounds toward
negative infinity). -/
def Frac.floorVal (a : Frac) : Int := a.num / a.den

/-- Modelled from the Python built-in round(x, 15), called by the uniform
override in src/mimesis/random.py: round the value to 15 decimal places,
ties to even.  The source computes on IEEE doubles; the model computes on
the exact rational values of those doubles, so the only rounding modelled
is this explicit round call. -/
def round15 (a : Frac) : Frac :=
  let scaledNum := a.num * 10 ^ 15
  let n := (⟨scaledNum, a.den⟩ : Frac).floorVal
  let rem := scaledNum - n * a.den
  let n2 :=
    if 2 * rem > a.den then n + 1
    else if 2 * rem < a.den then n
    else if n % 2 = 0 then n else n + 1
  ⟨n2, 10 ^ 15⟩

/-- Shallow embedding of Random.uniform from src/mimesis/random.py at the
default precision 15: the base-class uniform(a, b) returns a + (b - a) * u
where u models the random() draw in [0, 1); the mimesis override rounds
the result to 15 decimal places. -/
def uniformDraw (a b u : Frac) : Frac := round15 (a.add ((b.sub a).mul u))

/-- Models sum(choices.values()) of Random.weighted_choice. -/
def sumWeights (l : List (α × Frac)) : Frac := l.foldl (fun acc p => acc.add p.2) ⟨0, 1⟩

/-- The subtraction walk of Random.weighted_choice: subtract each weight in
insertion order and return the first key at which the remainder is <= 0;
Python returns None implicitly when the walk falls off the end. -/
def weightedWalk (r : Frac) : List (α × Frac) → Option α
  | [] => none
  | (k, w) :: rest =>
    if (r.sub w).le ⟨0, 1⟩ then some k else weightedWalk (r.sub w) rest

/-- Shallow embedding of Random.weighted_choice from src/mimesis/random.py:
ValueError on an empty mapping, otherwise draw uniform(0, total) and walk
the mapping (a list of key-weight pairs, in insertion order). -/
def weighted_choice (choices : List (α × Frac)) (u : Frac) : Except PyErr (Option α) :=
  if choices.isEmpty then .error (.valueError "Choices dictionary cannot be empty.")
  else .ok (weightedWalk (uniformDraw ⟨0, 1⟩ (sumWeights choices) u) choices)

/-- C1: luhn_checksum applied to the base string 4012888888188 does not
return the check digit 1 claimed by the specification: the code returns 0,
while the doubling rule stated by the claim (rightmost base digit doubled)
returns 6 on that input.  On the 15-digit Visa test base 401288888888188
(whose true Luhn check digit is 1, matching the specification formula) the
code returns 5.  The code doubles digits starting at the second position
from the right, at even distance from the check position, contradicting
the Luhn rule stated by the claim and by its own docstring. -/
theorem c1_luhn_checksum_divergence :
    luhn_checksum "4012888888188" = "0" ∧
    luhnSpecChecksum "4012888888188" = "6" ∧
    luhn_checksum "401288888888188" = "5" ∧
    luhnSpecChecksum "401288888888188" = "1" := by
  refine ⟨?_, ?_, ?_, ?_⟩ <;> decide

/-- C2: every call to Code.issn, Code.isbn, Code.ean, Code.imei and
Code.pin fails with an AttributeError before producing any identifier,
because the Random class defines no attribute named custom_code (its mask
expansion method is named generate_string_by_mask). -/
theorem c2_custom_code_missing :
    ("custom_code" ∉ randomAttrs ∧ "generate_string_by_mask" ∈ randomAttrs) ∧
    (∀ mask draw, Code.issn mask draw = .error (.attributeError "Random" "custom_code")) ∧
    (∀ group draw, Code.isbn group draw = .error (.attributeError "Random" "custom_code")) ∧
    (∀ draw, Code.ean draw = .error (.attributeError "Random" "custom_code")) ∧
    (∀ tac draw, Code.imei tac draw = .error (.attributeError "Random" "custom_code")) ∧
    (∀ mask draw, Code.pin mask draw = .error (.attributeError "Random" "custom_code")) := by
  have hmem : randomGetattr "custom_code" = .error (.attributeError "Random" "custom_code") := by
    rfl
  refine ⟨by decide, ?_, ?_, ?_, ?_, ?_⟩ <;>
    intros <;>
    simp [Code.issn, Code.isbn, Code.ean, Code.imei, Code.pin, hmem, Except.map]

/-- C3: for every explicit seed S, two provider instances reseeded with S
(whatever their prior state, covering both fresh construction, which calls
reseed, and explicit reseeding, and whatever the ambient time-derived
entropy) produce identical output sequences for the same sequence of
generation calls. -/
theorem c3_determinism (S : Nat) (calls : List Call) (p q : Provider) (e1 e2 : Nat) :
    runCalls (p.reseed (.value S) e1) calls = runCalls (q.reseed (.value S) e2) calls := by
  have h : p.reseed (.value S) e1 = q.reseed (.value S) e2 := rfl
  rw [h]

/-- C8 counterexample: the ISBN check-digit computation applied to the
digit sequence 978030640615 does not yield the check digit 2 claimed by
the specification. -/
theorem c8_counterexample : calculate_isbn_check_digit "978030640615" ≠ "2" := by decide

/-- C8 (amended): the ISBN check-digit routine weights the character at
index i by 10 - i (descending from 10, turning negative past index 10)
with check (11 - (sum mod 11)) mod 11 and 10 rendered as X; on the
12-digit sequence 978030640615 it yields 3, while the check digit 2 of the
specification scenario arises for the 9-digit ISBN-10 base 030640615. -/
theorem c8_isbn_check_digit_values :
    calculate_isbn_check_digit "978030640615" = "3" ∧
    calculate_isbn_check_digit "030640615" = "2" := by
  refine ⟨?_, ?_⟩ <;> decide

theorem char_toNat_ofNat (n : Nat) (h : n < 55296) : (Char.ofNat n).toNat = n := by
  have hv : n.isValidChar := Or.inl h
  rw [Char.ofNat, dif_pos hv]
  rfl

theorem charDigit_digitChar (d : Nat) (h : d < 10) : charDigit (digitChar d) = d := by
  unfold charDigit digitChar
  rw [char_toNat_ofNat (48 + d) (by omega)]
  omega

theorem map_charDigit_digitChar (v : List Nat) (h : ∀ x ∈ v, x < 10) :
    (v.map digitChar).map charDigit = v := by
  rw [List.map_map]
  have : v.map (charDigit ∘ digitChar) = v.map id :=
    List.map_congr_left (fun x hx => charDigit_digitChar x (h x hx))
  rw [this, List.map_id]

theorem natDigitsAux_small (fuel n : Nat) (hf : 0 < fuel) (h : n < 10) :
    natDigitsAux fuel n = [n] := by
  cases fuel with
  | zero => omega
  | succ f => simp [natDigitsAux, h]

theorem natDigitsAux_step (fuel n : Nat) (h : ¬ n < 10) :
    natDigitsAux (fuel + 1) n = natDigitsAux fuel (n / 10) ++ [n % 10] := by
  simp [natDigitsAux, h]

theorem natToString_digit (d : Nat) (h : d < 10) : natToString d = String.mk [digitChar d] := by
  unfold natToString natDigits
  rw [natDigitsAux_small (d + 1) d (by omega) h]
  rfl

theorem pyFormat02_data (n : Nat) (h : n < 100) :
    (pyFormat02 n).data = [digitChar (n / 10), digitChar (n % 10)] := by
  unfold pyFormat02
  by_cases h10 : n < 10
  · rw [if_pos h10, natToString_digit n h10]
    have h1 : n / 10 = 0 := by omega
    have h2 : n % 10 = n := by omega
    rw [h1, h2]
    rfl
  · rw [if_neg h10]
    unfold natToString natDigits
    rw [natDigitsAux_step n n h10,
      natDigitsAux_small n (n / 10) (by omega) (by omega)]
    rfl

theorem natDigitsAux_lastTwo :
    ∀ fuel n, n < fuel → 10 ≤ n →
      ∃ pre, natDigitsAux fuel n = pre ++ [n / 10 % 10, n % 10] := by
  intro fuel
  induction fuel with
  | zero => intro n h1 h2; omega
  | succ f ih =>
    intro n h1 h2
    rw [natDigitsAux_step f n (by omega)]
    by_cases hq : n / 10 < 10
    · refine ⟨[], ?_⟩
      rw [natDigitsAux_small f (n / 10) (by omega) hq, Nat.mod_eq_of_lt hq]
      simp
    · obtain ⟨pre, hpre⟩ := ih (n / 10) (by omega) (by omega)
      refine ⟨pre ++ [n / 10 / 10 % 10], ?_⟩
      rw [hpre]
      simp

theorem pyLastTwo_natToString (year : Nat) (h : 10 ≤ year) :
    (pyLastTwo (natToString year)).data = [digitChar (year / 10 % 10), digitChar (year % 10)] := by
  obtain ⟨pre, hpre⟩ := natDigitsAux_lastTwo (year + 1) year (by omega) h
  unfold pyLastTwo natToString natDigits
  rw [hpre]
  simp only [List.map_append]
  have hlen : (pre.map digitChar ++ [digitChar (year / 10 % 10), digitChar (year % 10)]).length - 2
      = (pre.map digitChar).length := by
    simp
  show ((pre.map digitChar ++ [digitChar (year / 10 % 10), digitChar (year % 10)]).drop
    ((pre.map digitChar ++ [digitChar (year / 10 % 10), digitChar (year % 10)]).length - 2)) = _
  rw [hlen, List.drop_left]

theorem calculate_checksum_data (s' : String) (v : List Nat)
    (hv : s'.data = v.map digitChar) (h : ∀ x ∈ v, x < 10) :
    calculate_checksum s' = cprCheckOfDigits v := by
  unfold calculate_checksum cprCheckOfDigits cprWeightedSum
  have htot : ((s'.data.zip checksumFactors).map (fun p => charDigit p.1 * p.2)).sum
      = ((v.zip checksumFactors).map (fun p => p.1 * p.2)).sum := by
    rw [hv, List.zip_map_left, List.map_map]
    refine congrArg List.sum (List.map_congr_left ?_)
    rintro ⟨x, w⟩ hx
    have hx1 : x ∈ v := (List.of_mem_zip hx).1
    simp [charDigit_digitChar x (h x hx1)]
  rw [htot]

theorem calculate_checksum_le (s' : String) : calculate_checksum s' ≤ 10 := by
  unfold calculate_checksum
  have h : ((s'.data.zip checksumFactors).map (fun p => charDigit p.1 * p.2)).sum % 11 < 11 :=
    Nat.mod_lt _ (by omega)
  show (if 11 - ((s'.data.zip checksumFactors).map (fun p => charDigit p.1 * p.2)).sum % 11 = 11
      then 0
      else 11 - ((s'.data.zip checksumFactors).map (fun p => charDigit p.1 * p.2)).sum % 11) ≤ 10
  split <;> omega

theorem gsc_eq (century : String) (draws : List (Fin 10 × Fin 10 × Fin 10))
    (serial : String) (c : Nat)
    (h : generate_serial_checksum century draws = some (serial, c)) :
    c = calculate_checksum (century ++ serial) ∧ c ≠ 10 ∧
      ∃ a b d : Fin 10, serial = String.mk [digitChar a, digitChar b, digitChar d] := by
  induction draws with
  | nil => simp [generate_serial_checksum] at h
  | cons t rest ih =>
    obtain ⟨a, b, d⟩ := t
    simp only [generate_serial_checksum] at h
    by_cases hc :
        calculate_checksum (century ++ String.mk [digitChar a, digitChar b, digitChar d]) = 10
    · rw [if_neg (by simp [hc])] at h
      exact ih h
    · rw [if_pos hc] at h
      have hpair := Option.some.inj h
      have h1 : serial = String.mk [digitChar a, digitChar b, digitChar d] :=
        (congrArg Prod.fst hpair).symm
      have h2 : c =
          calculate_checksum (century ++ String.mk [digitChar a, digitChar b, digitChar d]) :=
        (congrArg Prod.snd hpair).symm
      subst h1
      exact ⟨h2, by rw [h2]; exact hc, a, b, d, rfl⟩

/-- C4: every string produced by DenmarkSpecProvider.cpr has 10 digits,
its 10th digit equals the checksum recomputed over the first 9 digits with
the weight vector (4,3,2,7,6,5,4,3,2) as 11 - (weighted sum mod 11) with a
raw result of 11 mapped to 0, and the weighted sum mod 11 of an accepted
value never equals 1 (serials with raw checksum 10 are redrawn). -/
theorem c4_cpr_checksum (day month year : Nat) (draws : List (Fin 10 × Fin 10 × Fin 10))
    (s : String) (hd : day < 100) (hm : month < 100) (hy : 10 ≤ year)
    (h : cpr day month year draws = some s) :
    (s.data.map charDigit).length = 10 ∧
    (s.data.map charDigit).getD 9 0 = cprCheckOfDigits ((s.data.map charDigit).take 9) ∧
    cprWeightedSum ((s.data.map charDigit).take 9) % 11 ≠ 1 := by
  simp only [cpr] at h
  cases hg : generate_serial_checksum
      (pyFormat02 day ++ pyFormat02 month ++ pyLastTwo (natToString year)) draws with
  | none => rw [hg] at h; simp at h
  | some p =>
    obtain ⟨serial, c⟩ := p
    rw [hg, Option.map_some'] at h
    have hs : pyFormat02 day ++ pyFormat02 month ++ pyLastTwo (natToString year) ++ serial
        ++ natToString c = s := Option.some.inj h
    obtain ⟨hcs, hc10, a, b, d, hser⟩ := gsc_eq _ draws serial c hg
    have hcle : c ≤ 9 := by
      have := calculate_checksum_le
        (pyFormat02 day ++ pyFormat02 month ++ pyLastTwo (natToString year) ++ serial)
      omega
    -- the digit values of the generated string
    set v9 : List Nat := [day / 10, day % 10, month / 10, month % 10,
      year / 10 % 10, year % 10, a.val, b.val, d.val] with hv9
    have hv9lt : ∀ x ∈ v9 ++ [c], x < 10 := by
      intro x hx
      have ha := a.isLt
      have hb := b.isLt
      have hdd := d.isLt
      simp [hv9] at hx
      rcases hx with hx | hx | hx | hx | hx | hx | hx | hx | hx | hx <;> omega
    have hcent : (pyFormat02 day ++ pyFormat02 month ++ pyLastTwo (natToString year) ++
        serial).data = v9.map digitChar := by
      rw [hser]
      simp only [String.data_append]
      rw [pyFormat02_data day hd, pyFormat02_data month hm, pyLastTwo_natToString year hy]
      rfl
    have hsd : s.data = (v9 ++ [c]).map digitChar := by
      rw [← hs]
      simp only [String.data_append]
      rw [natToString_digit c (by omega)]
      have := hcent
      simp only [String.data_append] at this
      simp [hv9, hser, pyFormat02_data day hd, pyFormat02_data month hm,
        pyLastTwo_natToString year hy]
    have hmap : s.data.map charDigit = v9 ++ [c] := by
      rw [hsd, map_charDigit_digitChar _ hv9lt]
    rw [hmap]
    have htake : (v9 ++ [c]).take 9 = v9 := by simp [hv9]
    have hgetD : (v9 ++ [c]).getD 9 0 = c := by simp [hv9]
    have hceq : c = cprCheckOfDigits v9 := by
      rw [hcs]
      exact calculate_checksum_data _ v9 hcent (fun x hx => hv9lt x (by simp [hx]))
    refine ⟨by simp [hv9], by rw [htake, hgetD, hceq], ?_⟩
    rw [htake]
    intro hone
    apply hc10
    rw [hceq]
    unfold cprCheckOfDigits
    rw [hone]
    decide

/-- C4 witness: cpr with birth date 4 May 1942 and serial draw 069 yields
the accepted string 0405420694, whose 10th digit is the recomputed
checksum and whose weighted sum mod 11 is not 1. -/
theorem c4_cpr_checksum_witness :
    ("0405420694".data.map charDigit).length = 10 ∧
    ("0405420694".data.map charDigit).getD 9 0 =
      cprCheckOfDigits (("0405420694".data.map charDigit).take 9) ∧
    cprWeightedSum (("0405420694".data.map charDigit).take 9) % 11 ≠ 1 :=
  c4_cpr_checksum 4 5 1942 [(0, 6, 9)] "0405420694"
    (by omega) (by omega) (by omega) (by decide)

theorem mapM_fiscal_get (l : List Char) (h : ∀ c ∈ l, charTableIdx c < 10) :
    l.mapM (fun c => fiscalOddTable.get? (charTableIdx c)) =
      some (l.map (fun c => fiscalOddTable.getD (charTableIdx c) 0)) := by
  induction l with
  | nil => rfl
  | cons a l ih =>
    have ha : charTableIdx a < 10 := h a (by simp)
    have hlen : charTableIdx a < fiscalOddTable.length := by
      simp only [fiscalOddTable, List.length]
      omega
    have hget : fiscalOddTable.get? (charTableIdx a) =
        some (fiscalOddTable.getD (charTableIdx a) 0) := by
      rw [List.get?_eq_get hlen, List.getD_eq_getElem fiscalOddTable 0 hlen]
      rfl
    rw [List.mapM_cons, hget, ih (fun c hc => h c (by simp [hc]))]
    rfl

/-- C5 counterexample: no 26-entry remap table makes the check letter of
the source equal the claim formula (even positions direct, odd positions
through the table) on both base codes 2AAAAAAAAAAAAAA and 3AAAAAAAAAAAAAA.
The two codes differ only in the digit at even position 0, so under the
claim formula their check letters differ by exactly 1 mod 26 whatever the
table holds, but the source (which remaps even positions through its table,
sending 2 to 5 and 3 to 7) produces E and G, which differ by 2. -/
theorem c5_counterexample : ¬ ∃ table : Nat → Nat,
    fiscalCheck "2AAAAAAAAAAAAAA" = some (specFiscalCheck table "2AAAAAAAAAAAAAA") ∧
    fiscalCheck "3AAAAAAAAAAAAAA" = some (specFiscalCheck table "3AAAAAAAAAAAAAA") := by
  rintro ⟨t, h1, h2⟩
  have e1 : fiscalCheck "2AAAAAAAAAAAAAA" = some 'E' := by decide
  have e2 : fiscalCheck "3AAAAAAAAAAAAAA" = some 'G' := by decide
  rw [e1] at h1
  rw [e2] at h2
  have g1 := Option.some.inj h1
  have g2 := Option.some.inj h2
  unfold specFiscalCheck at g1 g2
  have hdrop : ("3AAAAAAAAAAAAAA".data.drop 1) = ("2AAAAAAAAAAAAAA".data.drop 1) := by decide
  rw [hdrop] at g2
  have he1 : ((everyOther "2AAAAAAAAAAAAAA".data).map charValDirect).sum = 72 := by decide
  have he2 : ((everyOther "3AAAAAAAAAAAAAA".data).map charValDirect).sum = 73 := by decide
  rw [he1] at g1
  rw [he2] at g2
  have hm1 : (72 + ((everyOther ("2AAAAAAAAAAAAAA".data.drop 1)).map
      (fun c => t (charTableIdx c))).sum) % 26 + 65 < 55296 := by
    have := Nat.mod_lt (72 + ((everyOther ("2AAAAAAAAAAAAAA".data.drop 1)).map
      (fun c => t (charTableIdx c))).sum) (y := 26) (by omega)
    omega
  have hm2 : (73 + ((everyOther ("2AAAAAAAAAAAAAA".data.drop 1)).map
      (fun c => t (charTableIdx c))).sum) % 26 + 65 < 55296 := by
    have := Nat.mod_lt (73 + ((everyOther ("2AAAAAAAAAAAAAA".data.drop 1)).map
      (fun c => t (charTableIdx c))).sum) (y := 26) (by omega)
    omega
  have n1 := congrArg Char.toNat g1
  have n2 := congrArg Char.toNat g2
  rw [char_toNat_ofNat _ hm1] at n1
  rw [char_toNat_ofNat _ hm2] at n2
  have v1 : 'E'.toNat = 69 := by decide
  have v2 : 'G'.toNat = 71 := by decide
  rw [v1] at n1
  rw [v2] at n2
  omega

/-- C5 (amended): in the source the parities are swapped relative to the
claim and the remap list has 10 entries, not 26: the characters at odd
0-indexed positions contribute their direct digit value or ord(letter) -
55, the characters at even positions contribute through the fixed 10-entry
remap list (1,0,5,7,9,13,15,17,19,21) indexed by digit value or letter
offset (in range only for digits and letters A through J), and the check
letter is chr((direct_sum + table_sum) mod 26 + 65). -/
theorem c5_fiscal_check_amended (code : String)
    (h : ∀ c ∈ everyOther code.data, charTableIdx c < 10) :
    fiscalCheck code = some (Char.ofNat ((fiscalDirectSum code +
      ((everyOther code.data).map (fun c => fiscalOddTable.getD (charTableIdx c) 0)).sum)
      % 26 + 65)) := by
  unfold fiscalCheck fiscalTableSum
  rw [mapM_fiscal_get _ h]
  rfl

/-- C5 witness: the amended check-letter formula evaluated on the base code
2AAAAAAAAAAAAAA, whose even-position characters are all in range. -/
theorem c5_fiscal_check_amended_witness :
    fiscalCheck "2AAAAAAAAAAAAAA" = some (Char.ofNat ((fiscalDirectSum "2AAAAAAAAAAAAAA" +
      ((everyOther "2AAAAAAAAAAAAAA".data).map
        (fun c => fiscalOddTable.getD (charTableIdx c) 0)).sum) % 26 + 65)) :=
  c5_fiscal_check_amended "2AAAAAAAAAAAAAA" (by decide)

/-- C6: there is a sequence of draws on which fiscal_code raises an
out-of-range indexing error instead of returning a code: with surname KAA
the letter K sits at even position 0, the remap list has only 10 entries,
and K indexes it at ord(K) - 65 = 10. -/
theorem c6_fiscal_code_index_error :
    fiscal_code "KAA" "AAA" 66 'R' 5 false "A1B2" = none ∧
    fiscalOddTable.length = 10 ∧
    charTableIdx 'K' = 10 ∧
    fiscalOddTable.get? (charTableIdx 'K') = none := by
  refine ⟨?_, ?_, ?_, ?_⟩ <;> decide

theorem get_verifying_digit_cpf_le (l : List Nat) (w : Nat) :
    get_verifying_digit_cpf l w ≤ 9 := by
  unfold get_verifying_digit_cpf
  have h : (l.enum.map (fun p => p.2 * (w - p.1))).sum % 11 < 11 := Nat.mod_lt _ (by omega)
  show (if (l.enum.map (fun p => p.2 * (w - p.1))).sum % 11 < 2 then 0
    else 11 - (l.enum.map (fun p => p.2 * (w - p.1))).sum % 11) ≤ 9
  split <;> omega

theorem digitChar_isDigit (d : Nat) (h : d < 10) : (digitChar d).isDigit = true := by
  interval_cases d <;> decide

theorem digitsOf_append (s t : String) : digitsOf (s ++ t) = digitsOf s ++ digitsOf t := by
  unfold digitsOf
  rw [String.data_append, List.filter_append, List.map_append]

theorem digitsOf_natToString (x : Nat) (h : x < 10) : digitsOf (natToString x) = [x] := by
  rw [natToString_digit x h]
  show ([digitChar x].filter Char.isDigit).map charDigit = [x]
  simp [List.filter, digitChar_isDigit x h, charDigit_digitChar x h]

theorem digitsOf_mk_digits (v : List Nat) (h : ∀ x ∈ v, x < 10) :
    digitsOf (String.mk (v.map digitChar)) = v := by
  unfold digitsOf
  have hf : (v.map digitChar).filter Char.isDigit = v.map digitChar := by
    apply List.filter_eq_self.mpr
    intro a hain
    obtain ⟨x, hx, rfl⟩ := List.mem_map.mp hain
    exact digitChar_isDigit x (h x hx)
  show ((v.map digitChar).filter Char.isDigit).map charDigit = v
  rw [hf, map_charDigit_digitChar v h]

theorem join_map_natToString (v : List Nat) (h : ∀ x ∈ v, x < 10) :
    pyJoin (v.map natToString) = String.mk (v.map digitChar) := by
  unfold pyJoin
  have : ((v.map natToString).map String.data).flatten = v.map digitChar := by
    induction v with
    | nil => rfl
    | cons a l ih =>
      have ha : a < 10 := h a (by simp)
      simp only [List.map_cons, List.flatten_cons]
      rw [natToString_digit a ha, ih (fun x hx => h x (by simp [hx]))]
      rfl
  rw [this]

/-- C7: every string returned by BrazilSpecProvider.cpf carries 11 digits;
its 10th digit is the verifying digit of the first 9 digits alone with
weights starting at 10, and its 11th digit is the same formula applied to
the 10 preceding digits with weights starting at 11. -/
theorem c7_cpf_check_digits (d0 d1 d2 d3 d4 d5 d6 d7 d8 : Fin 10) (with_mask : Bool) :
    (digitsOf (cpf d0 d1 d2 d3 d4 d5 d6 d7 d8 with_mask)).length = 11 ∧
    (digitsOf (cpf d0 d1 d2 d3 d4 d5 d6 d7 d8 with_mask)).getD 9 0 =
      get_verifying_digit_cpf ((digitsOf (cpf d0 d1 d2 d3 d4 d5 d6 d7 d8 with_mask)).take 9) 10 ∧
    (digitsOf (cpf d0 d1 d2 d3 d4 d5 d6 d7 d8 with_mask)).getD 10 0 =
      get_verifying_digit_cpf ((digitsOf (cpf d0 d1 d2 d3 d4 d5 d6 d7 d8 with_mask)).take 10) 11 := by
  have h0 := d0.isLt
  have h1 := d1.isLt
  have h2 := d2.isLt
  have h3 := d3.isLt
  have h4 := d4.isLt
  have h5 := d5.isLt
  have h6 := d6.isLt
  have h7 := d7.isLt
  have h8 := d8.isLt
  have hv1 := get_verifying_digit_cpf_le
    [d0.val, d1.val, d2.val, d3.val, d4.val, d5.val, d6.val, d7.val, d8.val] 10
  have hv2 := get_verifying_digit_cpf_le
    ([d0.val, d1.val, d2.val, d3.val, d4.val, d5.val, d6.val, d7.val, d8.val] ++
      [get_verifying_digit_cpf
        [d0.val, d1.val, d2.val, d3.val, d4.val, d5.val, d6.val, d7.val, d8.val] 10]) 11
  have hv2n := get_verifying_digit_cpf_le
    [d0.val, d1.val, d2.val, d3.val, d4.val, d5.val, d6.val, d7.val, d8.val,
      get_verifying_digit_cpf
        [d0.val, d1.val, d2.val, d3.val, d4.val, d5.val, d6.val, d7.val, d8.val] 10] 11
  have hdig : digitsOf (cpf d0 d1 d2 d3 d4 d5 d6 d7 d8 with_mask) =
      [d0.val, d1.val, d2.val, d3.val, d4.val, d5.val, d6.val, d7.val, d8.val] ++
      [get_verifying_digit_cpf
        [d0.val, d1.val, d2.val, d3.val, d4.val, d5.val, d6.val, d7.val, d8.val] 10] ++
      [get_verifying_digit_cpf
        ([d0.val, d1.val, d2.val, d3.val, d4.val, d5.val, d6.val, d7.val, d8.val] ++
          [get_verifying_digit_cpf
            [d0.val, d1.val, d2.val, d3.val, d4.val, d5.val, d6.val, d7.val, d8.val] 10]) 11] := by
    cases with_mask with
    | true =>
      show digitsOf (natToString d0.val ++ natToString d1.val ++ natToString d2.val ++ "." ++
        natToString d3.val ++ natToString d4.val ++ natToString d5.val ++ "." ++
        natToString d6.val ++ natToString d7.val ++ natToString d8.val ++ "-" ++
        natToString _ ++ natToString _) = _
      have hdot : digitsOf "." = [] := by decide
      have hdash : digitsOf "-" = [] := by decide
      simp only [digitsOf_append, hdot, hdash,
        digitsOf_natToString d0.val h0, digitsOf_natToString d1.val h1,
        digitsOf_natToString d2.val h2, digitsOf_natToString d3.val h3,
        digitsOf_natToString d4.val h4, digitsOf_natToString d5.val h5,
        digitsOf_natToString d6.val h6, digitsOf_natToString d7.val h7,
        digitsOf_natToString d8.val h8,
        digitsOf_natToString _ (by omega : get_verifying_digit_cpf
          [d0.val, d1.val, d2.val, d3.val, d4.val, d5.val, d6.val, d7.val, d8.val] 10 < 10),
        digitsOf_natToString _ (by omega : get_verifying_digit_cpf
          ([d0.val, d1.val, d2.val, d3.val, d4.val, d5.val, d6.val, d7.val, d8.val] ++
            [get_verifying_digit_cpf
              [d0.val, d1.val, d2.val, d3.val, d4.val, d5.val, d6.val, d7.val, d8.val] 10])
            11 < 10)]
      simp
    | false =>
      show digitsOf (pyJoin (_)) = _
      rw [join_map_natToString _ (by
        intro x hx
        simp at hx
        rcases hx with hx | hx | hx | hx | hx | hx | hx | hx | hx | hx | hx <;> omega)]
      rw [digitsOf_mk_digits _ (by
        intro x hx
        simp at hx
        rcases hx with hx | hx | hx | hx | hx | hx | hx | hx | hx | hx | hx <;> omega)]
  rw [hdig]
  refine ⟨by simp, by simp, by simp⟩

/-- C9: with the Visa prefix 4 and all-zero digit draws,
Payment.credit_card_number returns 4000 0000 0000 002: a 15-digit number
grouped 4-4-4-3, not the Luhn-checked 16-digit #### #### #### ####
number the claim describes, and its Luhn validation sum is 6, so the
number fails standard Luhn validation (the source draws only
14 - len(prefix) base digits and its luhn_checksum doubles the wrong
parity, see C1). -/
theorem c9_credit_card_number_code_bug :
    credit_card_number "4" (List.replicate 13 0) = "4000 0000 0000 002" ∧
    (digitsOf (credit_card_number "4" (List.replicate 13 0))).length = 15 ∧
    luhnStandardSum (credit_card_number "4" (List.replicate 13 0)) % 10 ≠ 0 := by
  refine ⟨?_, ?_, ?_⟩ <;> decide

theorem Frac.toQ_zero_one : (⟨0, 1⟩ : Frac).toQ = 0 := by
  unfold Frac.toQ
  norm_num

theorem Frac.toQ_add (a b : Frac) (ha : 0 < a.den) (hb : 0 < b.den) :
    (a.add b).toQ = a.toQ + b.toQ := by
  unfold Frac.toQ Frac.add
  have ha' : (a.den : ℚ) ≠ 0 := Int.cast_ne_zero.mpr (by omega)
  have hb' : (b.den : ℚ) ≠ 0 := Int.cast_ne_zero.mpr (by omega)
  push_cast
  field_simp

theorem Frac.toQ_sub (a b : Frac) (ha : 0 < a.den) (hb : 0 < b.den) :
    (a.sub b).toQ = a.toQ - b.toQ := by
  unfold Frac.toQ Frac.sub
  have ha' : (a.den : ℚ) ≠ 0 := Int.cast_ne_zero.mpr (by omega)
  have hb' : (b.den : ℚ) ≠ 0 := Int.cast_ne_zero.mpr (by omega)
  push_cast
  field_simp
  ring

theorem Frac.le_iff (a b : Frac) (ha : 0 < a.den) (hb : 0 < b.den) :
    a.le b ↔ a.toQ ≤ b.toQ := by
  unfold Frac.le Frac.toQ
  have ha' : (0 : ℚ) < (a.den : ℚ) := by exact_mod_cast ha
  have hb' : (0 : ℚ) < (b.den : ℚ) := by exact_mod_cast hb
  rw [div_le_div_iff₀ ha' hb']
  constructor
  · intro h; exact_mod_cast h
  · intro h; exact_mod_cast h

theorem foldl_add_den_pos (l : List (α × Frac)) :
    ∀ acc : Frac, 0 < acc.den → (∀ p ∈ l, 0 < p.2.den) →
      0 < (l.foldl (fun a p => a.add p.2) acc).den := by
  induction l with
  | nil => intro acc hacc _; exact hacc
  | cons p rest ih =>
    intro acc hacc hl
    have hp : 0 < p.2.den := hl p (by simp)
    exact ih (acc.add p.2) (mul_pos hacc hp) (fun q hq => hl q (by simp [hq]))

theorem foldl_add_toQ (l : List (α × Frac)) :
    ∀ acc : Frac, 0 < acc.den → (∀ p ∈ l, 0 < p.2.den) →
      (l.foldl (fun a p => a.add p.2) acc).toQ =
        acc.toQ + (l.map (fun p => p.2.toQ)).sum := by
  induction l with
  | nil => intro acc _ _; simp
  | cons p rest ih =>
    intro acc hacc hl
    have hp : 0 < p.2.den := hl p (by simp)
    have := ih (acc.add p.2) (mul_pos hacc hp) (fun q hq => hl q (by simp [hq]))
    simp only [List.foldl_cons, List.map_cons, List.sum_cons]
    rw [this, Frac.toQ_add acc p.2 hacc hp]
    ring

theorem sumWeights_den_pos (l : List (α × Frac)) (h : ∀ p ∈ l, 0 < p.2.den) :
    0 < (sumWeights l).den :=
  foldl_add_den_pos l ⟨0, 1⟩ (by decide) h

theorem sumWeights_toQ (l : List (α × Frac)) (h : ∀ p ∈ l, 0 < p.2.den) :
    (sumWeights l).toQ = (l.map (fun p => p.2.toQ)).sum := by
  unfold sumWeights
  rw [foldl_add_toQ l ⟨0, 1⟩ (by decide) h, Frac.toQ_zero_one, zero_add]

theorem weightedWalk_some (l : List (α × Frac)) :
    ∀ r : Frac, 0 < r.den → (∀ p ∈ l, 0 < p.2.den) → l ≠ [] →
      r.toQ ≤ (sumWeights l).toQ →
      ∃ k, k ∈ l.map Prod.fst ∧ weightedWalk r l = some k := by
  induction l with
  | nil => intro r _ _ hne _; exact absurd rfl hne
  | cons p rest ih =>
    obtain ⟨k, w⟩ := p
    intro r hr hw _ hle
    have hwd : 0 < w.den := hw (k, w) (by simp)
    have hr2 : 0 < (r.sub w).den := by
      unfold Frac.sub
      exact mul_pos hr hwd
    have hsub : (r.sub w).toQ = r.toQ - w.toQ := Frac.toQ_sub r w hr hwd
    have hsum : (sumWeights ((k, w) :: rest)).toQ =
        w.toQ + (rest.map (fun p => p.2.toQ)).sum := by
      rw [sumWeights_toQ _ hw]
      simp
    by_cases hc : (r.sub w).le ⟨0, 1⟩
    · refine ⟨k, by simp, ?_⟩
      unfold weightedWalk
      rw [if_pos hc]
    · have hrest : rest ≠ [] := by
        intro h0
        subst h0
        apply hc
        rw [Frac.le_iff _ _ hr2 (by decide), Frac.toQ_zero_one, hsub]
        simp only [List.map_nil, List.sum_nil, add_zero] at hsum
        rw [hsum] at hle
        linarith
      have hle2 : (r.sub w).toQ ≤ (sumWeights rest).toQ := by
        rw [hsub, sumWeights_toQ rest (fun q hq => hw q (by simp [hq]))]
        rw [hsum] at hle
        linarith
      obtain ⟨k2, hk2, hwk⟩ :=
        ih (r.sub w) hr2 (fun q hq => hw q (by simp [hq])) hrest hle2
      refine ⟨k2, ?_, ?_⟩
      · simp only [List.map_cons, List.mem_cons]
        exact Or.inr hk2
      · unfold weightedWalk
        rw [if_neg hc]
        exact hwk

/-- C10 counterexample: a mapping with exactly one key of positive weight
does not always return that key.  With the weight w = (2^53 - 1) / 2^53 (a
value an IEEE double represents exactly) and the uniform draw
u = (2^53 - 1) / 2^53 (the largest value random() can return), the rounded
draw round(w * u, 15) is exactly 1, which exceeds w, so the subtraction
walk falls off the end and weighted_choice returns None instead of the
key. -/
theorem c10_counterexample :
    (0 : Int) < (⟨2 ^ 53 - 1, 2 ^ 53⟩ : Frac).num ∧
    (0 : Int) < (⟨2 ^ 53 - 1, 2 ^ 53⟩ : Frac).den ∧
    (0 : Int) ≤ (⟨2 ^ 53 - 1, 2 ^ 53⟩ : Frac).num ∧
    (⟨2 ^ 53 - 1, 2 ^ 53⟩ : Frac).num < (⟨2 ^ 53 - 1, 2 ^ 53⟩ : Frac).den ∧
    weighted_choice [("a", (⟨2 ^ 53 - 1, 2 ^ 53⟩ : Frac))] ⟨2 ^ 53 - 1, 2 ^ 53⟩ =
      .ok none := by
  refine ⟨by decide, by decide, by decide, by decide, ?_⟩
  rfl

/-- C10 (amended): weighted_choice raises a ValueError exactly on the
empty mapping; for every non-empty mapping whose rounded uniform draw
r = round(total * u, 15) satisfies r <= total it returns a key of the
mapping, and in particular a singleton mapping with one key of positive
weight returns that key for every draw with round(w * u, 15) <= w; but
because uniform rounds to 15 decimal places the drawn r can exceed the
total weight, in which case the walk falls through and None is returned
(see the counterexample). -/
theorem c10_weighted_choice_amended :
    (∀ u : Frac, weighted_choice ([] : List (String × Frac)) u =
      .error (.valueError "Choices dictionary cannot be empty.")) ∧
    (∀ (l : List (String × Frac)) (u : Frac), l ≠ [] → (∀ p ∈ l, 0 < p.2.den) →
      (uniformDraw ⟨0, 1⟩ (sumWeights l) u).le (sumWeights l) →
      ∃ k, k ∈ l.map Prod.fst ∧ weighted_choice l u = .ok (some k)) ∧
    (∀ (k : String) (w u : Frac), 0 < w.num → 0 < w.den →
      (uniformDraw ⟨0, 1⟩ w u).le w →
      weighted_choice [(k, w)] u = .ok (some k)) := by
  refine ⟨fun u => rfl, ?_, ?_⟩
  · intro l u hne hw hle
    have hempty : l.isEmpty = false := by
      cases l with
      | nil => exact absurd rfl hne
      | cons p rest => rfl
    have hrden : 0 < (uniformDraw ⟨0, 1⟩ (sumWeights l) u).den := by
      show (0 : Int) < 10 ^ 15
      decide
    have hsden : 0 < (sumWeights l).den := sumWeights_den_pos l hw
    have hleQ : (uniformDraw ⟨0, 1⟩ (sumWeights l) u).toQ ≤ (sumWeights l).toQ :=
      (Frac.le_iff _ _ hrden hsden).mp hle
    obtain ⟨k, hk, hwk⟩ :=
      weightedWalk_some l (uniformDraw ⟨0, 1⟩ (sumWeights l) u) hrden hw hne hleQ
    refine ⟨k, hk, ?_⟩
    unfold weighted_choice
    rw [if_neg (by simp [hempty])]
    rw [hwk]
  · intro k w u _ hwd hle
    have hsw : sumWeights [(k, w)] = w := by
      obtain ⟨n, d⟩ := w
      simp [sumWeights, Frac.add]
    unfold weighted_choice
    rw [if_neg (by simp)]
    rw [hsw]
    have hcond : ((uniformDraw ⟨0, 1⟩ w u).sub w).le ⟨0, 1⟩ := by
      unfold Frac.le at hle ⊢
      unfold Frac.sub
      simp only [mul_one, zero_mul]
      omega
    unfold weightedWalk
    rw [if_pos hcond]

/-- C10 witness: the singleton mapping with key a and weight 1/2 returns a
for the draw u = 1/2 (whose rounded uniform value 1/4 is below the
weight), and the general non-empty clause applies to the same mapping. -/
theorem c10_weighted_choice_amended_witness :
    weighted_choice [("a", (⟨1, 2⟩ : Frac))] ⟨1, 2⟩ = .ok (some "a") ∧
    (∃ k, k ∈ [("a", (⟨1, 2⟩ : Frac))].map Prod.fst ∧
      weighted_choice [("a", (⟨1, 2⟩ : Frac))] ⟨1, 2⟩ = .ok (some k)) :=
  ⟨c10_weighted_choice_amended.2.2 "a" ⟨1, 2⟩ ⟨1, 2⟩ (by decide) (by decide) (by decide),
   c10_weighted_choice_amended.2.1 [("a", ⟨1, 2⟩)] ⟨1, 2⟩ (by decide)
     (by decide) (by decide)⟩

end Mimesis
